import Mathlib

/-!
Verification of the `FillerFilter` transcription extension
(`livekit-agents/livekit/agents/voice/extensions/transcription_filler_filter.py`).

Python strings are modelled as lists of Unicode code points (`List Nat`);
the string operations used by the source (`str.strip`, `str.lower`,
`str.split`, `str.split(",")`) are embedded below over that representation
(ASCII whitespace and ASCII case folding, which is the fragment the
source's data actually exercises).

The optional richer tokenizer (`from ..tokenize.basic import split_words`)
is absent from this repository, so the `except` fallback — simple
whitespace split — is the effective tokenizer and is what is embedded.
-/

/-- A Python string, as its list of Unicode code points. -/
abbrev PyStr := List Nat

/-- Decode a Lean string literal into the code-point model. -/
def pyStr (s : String) : PyStr := s.toList.map Char.toNat

/-- ASCII whitespace, the characters removed by Python `str.strip()`
and used as separators by `str.split()`. -/
def isPyWS (n : Nat) : Bool :=
  n = 32 || n = 9 || n = 10 || n = 13 || n = 11 || n = 12

/-- The punctuation set stripped by the source: `.,!?"'()[]<>`. -/
def pyPunct : List Nat := [46, 44, 33, 63, 34, 39, 40, 41, 91, 93, 60, 62]

def isPyPunct (n : Nat) : Bool := pyPunct.contains n

/-- Python `c.lower()` on a single code point (ASCII fragment). -/
def pyLowerChar (n : Nat) : Nat := if 65 ≤ n ∧ n ≤ 90 then n + 32 else n

/-- Python `s.lower()` (ASCII fragment). -/
def pyLower (s : PyStr) : PyStr := s.map pyLowerChar

/-- Python `s.strip(chars)`: remove characters satisfying `p` from both ends. -/
def pyStripBy (p : Nat → Bool) (s : PyStr) : PyStr :=
  List.rdropWhile p (s.dropWhile p)

/-- Python `s.strip()` (no argument: whitespace). -/
def pyStripWS (s : PyStr) : PyStr := pyStripBy isPyWS s

/-- Python `s.strip(".,!?\x22'()[]<>")`. -/
def pyStripPunct (s : PyStr) : PyStr := pyStripBy isPyPunct s

/-- Python `s.split()` (no argument): split on whitespace runs, dropping
empty tokens.  Auxiliary accumulator holds the current token reversed. -/
def pySplitWSAux (acc : PyStr) : PyStr → List PyStr
  | [] => if acc.isEmpty then [] else [acc.reverse]
  | c :: rest =>
    if isPyWS c then
      if acc.isEmpty then pySplitWSAux [] rest
      else acc.reverse :: pySplitWSAux [] rest
    else pySplitWSAux (c :: acc) rest

def pySplitWS (s : PyStr) : List PyStr := pySplitWSAux [] s

/-- Python `s.split(sep)` for a one-character separator: keeps empty parts. -/
def pySplitChar (sep : Nat) : PyStr → List PyStr
  | [] => [[]]
  | c :: rest =>
    if c = sep then [] :: pySplitChar sep rest
    else
      match pySplitChar sep rest with
      | [] => [[c]]
      | t :: ts => (c :: t) :: ts

/-- `_norm` from the source wrapper:
`s.strip().lower().strip(".,!?\x22'()[]<>")`. -/
def _norm (s : PyStr) : PyStr := pyStripPunct (pyLower (pyStripWS s))

/-- Token normalization inside the wrapper:
`t.lower().strip(".,!?\x22'()[]<>")` (tokens come from a whitespace split,
so no leading whitespace strip is applied to them). -/
def normToken (t : PyStr) : PyStr := pyStripPunct (pyLower t)

/-- `FillerFilter._init_` / `set_ignored_words`:
`[w.strip().lower() for w in words if w]` — keep the words that are
non-empty *before* stripping, store their stripped, lowercased forms. -/
def set_ignored_words (words : List PyStr) : List PyStr :=
  (words.filter (fun w => !w.isEmpty)).map (fun w => pyLower (pyStripWS w))

/-- The built-in default comma-separated word list from `from_env`
(the Python adjacent-literal concatenation, including the stray `,,,,`). -/
def defaultRaw : PyStr :=
  pyStr "uh,umm,hmm,err,ah,like,you know,mm,mhm,mmm,,,,[noise],[background],[inaudible],[laugh],[cough],[breath],<noise>,<silence>,<background>"

/-- `from_env` part extraction:
`[p.strip().lower() for p in raw.split(",") if p.strip()]`. -/
def fromEnvParts (raw : PyStr) : List PyStr :=
  ((pySplitChar 44 raw).filter (fun p => !(pyStripWS p).isEmpty)).map
    (fun p => pyLower (pyStripWS p))

/-- `FillerFilter.from_env`: `envVal` is `os.environ.get(env_var, "")` —
`none` models an unset variable.  Falls back to the default raw list when
the raw value is empty, then builds the filter via `_init_`. -/
def from_env (envVal : Option PyStr) : List PyStr :=
  let raw := envVal.getD []
  let raw := if raw.isEmpty then defaultRaw else raw
  set_ignored_words (fromEnvParts raw)

/-- The decision taken by the wrapper for one transcript event. -/
inductive Decision
  | forward
  | suppress
deriving DecidableEq

/-- The session object as the wrapper observes it:
`agent_state` read via `getattr(session, "agent_state", None)`, and
whether `session.emit` raises when invoked. -/
structure Session where
  agentState : Option PyStr
  emitFails : Bool
deriving DecidableEq

/-- The activity context at decision time: `getattr(activity, "_session", None)`. -/
structure ActivityCtx where
  session : Option Session
deriving DecidableEq

/-- A transcript event.  `transcriptAttr = none` models an event on which
accessing `ev.transcript` raises (missing attribute); `some none` models
`ev.transcript is None`; `some (some s)` a string transcript. -/
structure Ev where
  transcriptAttr : Option (Option PyStr)
deriving DecidableEq

def speakingStr : PyStr := pyStr "speaking"

/-- Result of the wrapper's outer `try` body. -/
inductive TryOutcome
  | suppressed
  | fellThrough
  | raised
deriving DecidableEq

/-- The body of the wrapper's outer `try`, following the source line by
line: read `ev.transcript` (raising when absent), apply the speaking /
non-blank / non-empty-vocabulary gate, tokenize, normalize, and test
whether every token is in the normalized ignored set. -/
def wrapperTry (vocab : List PyStr) (ctx : ActivityCtx) (ev : Ev) : TryOutcome :=
  match ev.transcriptAttr with
  | none => TryOutcome.raised
  | some tr =>
    match ctx.session with
    | none => TryOutcome.fellThrough
    | some s =>
      if s.agentState = some speakingStr ∧ pyStripWS (tr.getD []) ≠ [] ∧ vocab ≠ [] then
        if ((pySplitWS (tr.getD [])).map normToken) ≠ [] ∧
            (∀ tok ∈ (pySplitWS (tr.getD [])).map normToken, tok ∈ vocab.map _norm) then
          TryOutcome.suppressed
        else TryOutcome.fellThrough
      else TryOutcome.fellThrough

/-- Observable outcome of one wrapper invocation. -/
structure Outcome where
  decision : Decision
  /-- The event the original handler is invoked with, `none` when suppressed. -/
  origArg : Option Ev
  /-- How many times `session.emit("agent_false_interruption")` is invoked. -/
  emitAttempts : Nat
  /-- Whether the outer `except` logged an internal error. -/
  errorLogged : Bool
  /-- Whether the inner `except` logged a failure of the emit itself. -/
  emitFailureLogged : Bool
deriving DecidableEq

def emitFailsOf (ctx : ActivityCtx) : Bool :=
  match ctx.session with
  | some s => s.emitFails
  | none => false

/-- The wrapper installed by `attach_to_activity`: on suppression the
notification is attempted once (its own failure is caught and logged);
on fall-through the original handler receives the unmodified event; an
error escaping the `try` body is caught, logged, and forwards. -/
def wrapper (vocab : List PyStr) (ctx : ActivityCtx) (ev : Ev) : Outcome :=
  match wrapperTry vocab ctx ev with
  | TryOutcome.suppressed =>
    { decision := Decision.suppress, origArg := none, emitAttempts := 1,
      errorLogged := false, emitFailureLogged := emitFailsOf ctx }
  | TryOutcome.fellThrough =>
    { decision := Decision.forward, origArg := some ev, emitAttempts := 0,
      errorLogged := false, emitFailureLogged := false }
  | TryOutcome.raised =>
    { decision := Decision.forward, origArg := some ev, emitAttempts := 0,
      errorLogged := true, emitFailureLogged := false }

/-- Runtime patch state for `attach_to_activity` / `detach_from_activity`:
activities are identified by `Nat` keys, `handlers` is each activity's
current `_on_input_audio_transcription_completed` attribute (every
activity in the model has one, so the `AttributeError` guard never
fires), and `origMap` is `_orig_handler_map`. -/
structure PatchState (H : Type) where
  handlers : Nat → H
  origMap : List (Nat × H)

/-- `attach_to_activity`: a no-op when the activity is already a key of
`_orig_handler_map`; otherwise record the original handler and install
the wrapper built from it. -/
def attach_to_activity {H : Type} (wrap : H → H) (a : Nat) (s : PatchState H) : PatchState H :=
  if (s.origMap.lookup a).isSome then s
  else
    { handlers := fun x => if x = a then wrap (s.handlers a) else s.handlers x,
      origMap := (a, s.handlers a) :: s.origMap }

/-- `detach_from_activity`: pop the recorded original handler and, when
present, restore it. -/
def detach_from_activity {H : Type} (a : Nat) (s : PatchState H) : PatchState H :=
  match s.origMap.lookup a with
  | none => s
  | some orig =>
    { handlers := fun x => if x = a then orig else s.handlers x,
      origMap := s.origMap.eraseP (fun pr => pr.1 == a) }

/-! ### Helper lemmas about the embedded string operations -/

theorem dropWhile_head_false {α : Type} {p : α → Bool} :
    ∀ (l : List α) (a : α) (t : List α), l.dropWhile p = a :: t → p a = false := by
  intro l
  induction l with
  | nil => intro a t h; simp at h
  | cons x xs ih =>
    intro a t h
    rw [List.dropWhile_cons] at h
    by_cases hx : p x
    · rw [if_pos hx] at h
      exact ih a t h
    · rw [if_neg hx] at h
      injection h with h1 h2
      subst h1
      simpa using hx

theorem dropWhile_eq_self_of_all {α : Type} {p : α → Bool} {l : List α}
    (h : ∀ c ∈ l, p c = false) : l.dropWhile p = l := by
  cases l with
  | nil => rfl
  | cons a t =>
    rw [List.dropWhile_cons, if_neg]
    simp [h a (List.mem_cons_self a t)]

theorem rdropWhile_eq_self_of_all {α : Type} {p : α → Bool} {l : List α}
    (h : ∀ c ∈ l, p c = false) : List.rdropWhile p l = l := by
  rw [List.rdropWhile_eq_self_iff]
  intro hl
  simp [h _ (List.getLast_mem hl)]

theorem pyStripBy_eq_self_of_all {p : Nat → Bool} {l : PyStr}
    (h : ∀ c ∈ l, p c = false) : pyStripBy p l = l := by
  unfold pyStripBy
  rw [dropWhile_eq_self_of_all h, rdropWhile_eq_self_of_all h]

theorem pyStripBy_idem (p : Nat → Bool) (l : PyStr) :
    pyStripBy p (pyStripBy p l) = pyStripBy p l := by
  unfold pyStripBy
  have hdrop : (List.rdropWhile p (l.dropWhile p)).dropWhile p
      = List.rdropWhile p (l.dropWhile p) := by
    cases hr : List.rdropWhile p (l.dropWhile p) with
    | nil => simp
    | cons a t =>
      have hpre := List.rdropWhile_prefix p (l.dropWhile p)
      rw [hr] at hpre
      obtain ⟨r, hrm⟩ := hpre
      have hm : l.dropWhile p = a :: (t ++ r) := by rw [← hrm]; simp
      have ha : p a = false := dropWhile_head_false l a (t ++ r) hm
      rw [List.dropWhile_cons, if_neg]
      simp [ha]
  rw [hdrop, List.rdropWhile_idempotent]

theorem pyStripBy_eq_nil_iff {p : Nat → Bool} {l : PyStr} :
    pyStripBy p l = [] ↔ ∀ c ∈ l, p c = true := by
  unfold pyStripBy
  rw [List.rdropWhile_eq_nil_iff]
  constructor
  · intro h
    cases hd : l.dropWhile p with
    | nil =>
      intro c hc
      have := List.dropWhile_eq_nil_iff.mp hd c hc
      simpa using this
    | cons a t =>
      have h1 := h a (by rw [hd]; exact List.mem_cons_self a t)
      have h2 := dropWhile_head_false l a t hd
      simp only [h1] at h2
      cases h2
  · intro h c hc
    exact h c ((List.dropWhile_suffix p).sublist.subset hc)

theorem mem_of_mem_pyStripBy {p : Nat → Bool} {l : PyStr} {c : Nat}
    (h : c ∈ pyStripBy p l) : c ∈ l := by
  unfold pyStripBy at h
  have hpre := List.rdropWhile_prefix p (l.dropWhile p)
  have h1 := hpre.sublist.subset h
  exact (List.dropWhile_suffix p).sublist.subset h1

theorem pyLowerChar_idem (n : Nat) : pyLowerChar (pyLowerChar n) = pyLowerChar n := by
  unfold pyLowerChar
  by_cases h : 65 ≤ n ∧ n ≤ 90
  · rw [if_pos h, if_neg (by omega)]
  · rw [if_neg h, if_neg h]

theorem isPyWS_pyLowerChar (n : Nat) : isPyWS (pyLowerChar n) = isPyWS n := by
  unfold pyLowerChar
  by_cases h : 65 ≤ n ∧ n ≤ 90
  · rw [if_pos h]
    have h1 : isPyWS (n + 32) = false := by simp [isPyWS]; omega
    have h2 : isPyWS n = false := by simp [isPyWS]; omega
    rw [h1, h2]
  · rw [if_neg h]

theorem pySplitWSAux_all_ws :
    ∀ (s : PyStr), (∀ c ∈ s, isPyWS c = true) → pySplitWSAux [] s = [] := by
  intro s
  induction s with
  | nil => intro _; rfl
  | cons c rest ih =>
    intro h
    simp only [pySplitWSAux, h c (List.mem_cons_self c rest), if_true,
      List.isEmpty_nil]
    exact ih (fun x hx => h x (List.mem_cons_of_mem c hx))

theorem pyStripWS_ne_nil_of_tokens {s : PyStr} (h : pySplitWS s ≠ []) :
    pyStripWS s ≠ [] := by
  intro hnil
  apply h
  unfold pySplitWS
  apply pySplitWSAux_all_ws
  intro c hc
  exact pyStripBy_eq_nil_iff.mp hnil c hc

theorem pySplitChar_ne_nil (sep : Nat) : ∀ (l : PyStr), pySplitChar sep l ≠ [] := by
  intro l
  induction l with
  | nil => simp [pySplitChar]
  | cons x rest ih =>
    simp only [pySplitChar]
    by_cases hx : x = sep
    · simp [hx]
    · rw [if_neg hx]
      cases hr : pySplitChar sep rest with
      | nil => simp
      | cons t ts => simp

theorem pySplitChar_mem {sep : Nat} :
    ∀ (l : PyStr) (part : PyStr), part ∈ pySplitChar sep l →
      ∀ c ∈ part, c ∈ l ∧ c ≠ sep := by
  intro l
  induction l with
  | nil =>
    intro part hp c hc
    simp [pySplitChar] at hp
    subst hp
    simp at hc
  | cons x rest ih =>
    intro part hp c hc
    simp only [pySplitChar] at hp
    by_cases hx : x = sep
    · rw [if_pos hx] at hp
      rcases List.mem_cons.mp hp with h1 | h1
      · subst h1; simp at hc
      · have := ih part h1 c hc
        exact ⟨List.mem_cons_of_mem x this.1, this.2⟩
    · rw [if_neg hx] at hp
      cases hr : pySplitChar sep rest with
      | nil => exact absurd hr (pySplitChar_ne_nil sep rest)
      | cons t ts =>
        rw [hr] at hp
        rcases List.mem_cons.mp hp with h1 | h1
        · subst h1
          rcases List.mem_cons.mp hc with h2 | h2
          · subst h2; exact ⟨List.mem_cons_self c rest, hx⟩
          · have := ih t (by rw [hr]; exact List.mem_cons_self t ts) c h2
            exact ⟨List.mem_cons_of_mem x this.1, this.2⟩
        · have := ih part (by rw [hr]; exact List.mem_cons_of_mem t h1) c hc
          exact ⟨List.mem_cons_of_mem x this.1, this.2⟩

theorem pyLower_pyLower (l : PyStr) : pyLower (pyLower l) = pyLower l := by
  unfold pyLower
  rw [List.map_map]
  exact List.map_congr_left (fun a _ => pyLowerChar_idem a)

theorem pyStripBy_map_comm {p : Nat → Bool} {f : Nat → Nat}
    (hf : ∀ n, p (f n) = p n) (l : PyStr) :
    pyStripBy p (l.map f) = (pyStripBy p l).map f := by
  unfold pyStripBy List.rdropWhile
  have hcomp : p ∘ f = p := funext hf
  rw [List.dropWhile_map, hcomp, ← List.map_reverse, List.dropWhile_map, hcomp,
    List.map_reverse]

theorem pyStripWS_pyLower_pyStripWS (x : PyStr) :
    pyStripWS (pyLower (pyStripWS x)) = pyLower (pyStripWS x) := by
  unfold pyStripWS pyLower
  rw [pyStripBy_map_comm isPyWS_pyLowerChar, pyStripBy_idem]

/-! ### Helper lemmas about the wrapper -/

/-- The forwarding outcome: original handler invoked with the unmodified
event, no emission, nothing logged. -/
def forwardOutcome (ev : Ev) : Outcome :=
  { decision := Decision.forward, origArg := some ev, emitAttempts := 0,
    errorLogged := false, emitFailureLogged := false }

/-- The condition `activity._session is not None and
activity._session.agent_state == "speaking"` as a proposition. -/
def isSpeaking (ctx : ActivityCtx) : Prop :=
  ∃ s, ctx.session = some s ∧ s.agentState = some speakingStr

theorem wrapper_forward_of_gate {vocab : List PyStr} {ctx : ActivityCtx} {ev : Ev}
    {tr : Option PyStr} (htr : ev.transcriptAttr = some tr)
    (h : ¬ isSpeaking ctx ∨ pyStripWS (tr.getD []) = [] ∨ vocab = []) :
    wrapper vocab ctx ev = forwardOutcome ev := by
  unfold wrapper wrapperTry
  rw [htr]
  cases hs : ctx.session with
  | none => rfl
  | some s =>
    dsimp only
    rw [if_neg]
    · rfl
    rintro ⟨h1, h2, h3⟩
    rcases h with h | h | h
    · exact h ⟨s, hs, h1⟩
    · exact h2 h
    · exact h3 h

theorem wrapperTry_speaking {vocab : List PyStr} {s : Session} {ev : Ev} {t : PyStr}
    (htr : ev.transcriptAttr = some (some t))
    (hspeak : s.agentState = some speakingStr)
    (hstrip : pyStripWS t ≠ [])
    (hvocab : vocab ≠ []) :
    wrapperTry vocab ⟨some s⟩ ev =
      if ((pySplitWS t).map normToken ≠ [] ∧
          ∀ tok ∈ (pySplitWS t).map normToken, tok ∈ vocab.map _norm)
      then TryOutcome.suppressed else TryOutcome.fellThrough := by
  unfold wrapperTry
  rw [htr]
  dsimp only [Option.getD]
  rw [if_pos ⟨hspeak, hstrip, hvocab⟩]

/-! ### Claims -/

/-- C1: while the agent state is speaking and the vocabulary is non-empty,
an event whose whitespace tokenization is non-empty is suppressed (original
handler not invoked) when every normalized token is in the normalized
vocabulary set, and forwarded (original handler invoked with the event)
when at least one normalized token is not. -/
theorem C1_all_filler_suppresses (vocab : List PyStr) (s : Session) (ev : Ev) (t : PyStr)
    (htr : ev.transcriptAttr = some (some t))
    (hspeak : s.agentState = some speakingStr)
    (hvocab : vocab ≠ [])
    (htok : pySplitWS t ≠ []) :
    ((∀ tok ∈ (pySplitWS t).map normToken, tok ∈ vocab.map _norm) →
        wrapper vocab ⟨some s⟩ ev =
          { decision := Decision.suppress, origArg := none, emitAttempts := 1,
            errorLogged := false, emitFailureLogged := s.emitFails }) ∧
    ((∃ tok ∈ (pySplitWS t).map normToken, tok ∉ vocab.map _norm) →
        wrapper vocab ⟨some s⟩ ev = forwardOutcome ev) := by
  have hstrip : pyStripWS t ≠ [] := pyStripWS_ne_nil_of_tokens htok
  have hmap : (pySplitWS t).map normToken ≠ [] := by simpa using htok
  have htry := wrapperTry_speaking htr hspeak hstrip hvocab
  constructor
  · intro hall
    rw [if_pos ⟨hmap, hall⟩] at htry
    unfold wrapper
    rw [htry]
    rfl
  · rintro ⟨tok, htokmem, hnot⟩
    rw [if_neg] at htry
    · unfold wrapper
      rw [htry]
      rfl
    rintro ⟨-, hall⟩
    exact hnot (hall tok htokmem)

theorem C1_witness :
    ((⟨some (some (pyStr "uh umm"))⟩ : Ev).transcriptAttr = some (some (pyStr "uh umm")) ∧
      pySplitWS (pyStr "uh umm") ≠ [] ∧
      (∀ tok ∈ (pySplitWS (pyStr "uh umm")).map normToken,
        tok ∈ ([pyStr "uh", pyStr "umm"]).map _norm)) ∧
    wrapper [pyStr "uh", pyStr "umm"] ⟨some ⟨some speakingStr, false⟩⟩
        ⟨some (some (pyStr "uh umm"))⟩ =
      { decision := Decision.suppress, origArg := none, emitAttempts := 1,
        errorLogged := false, emitFailureLogged := false } :=
  ⟨⟨rfl, by decide, by decide⟩,
    (C1_all_filler_suppresses [pyStr "uh", pyStr "umm"] ⟨some speakingStr, false⟩
      ⟨some (some (pyStr "uh umm"))⟩ (pyStr "uh umm") rfl rfl (by decide) (by decide)).1
      (by decide)⟩

/-- C2: if the agent is not in the speaking state, or the vocabulary is
empty, or the transcript is empty or whitespace-only, the wrapper forwards
the unmodified event to the original handler, regardless of content. -/
theorem C2_forward_when_gate_fails (vocab : List PyStr) (ctx : ActivityCtx) (ev : Ev)
    (tr : Option PyStr) (htr : ev.transcriptAttr = some tr)
    (h : ¬ isSpeaking ctx ∨ vocab = [] ∨ pyStripWS (tr.getD []) = []) :
    wrapper vocab ctx ev = forwardOutcome ev := by
  apply wrapper_forward_of_gate htr
  rcases h with h | h | h
  · exact Or.inl h
  · exact Or.inr (Or.inr h)
  · exact Or.inr (Or.inl h)

theorem C2_witness :
    ((⟨some (some (pyStr "stop now"))⟩ : Ev).transcriptAttr
        = some (some (pyStr "stop now")) ∧ ([] : List PyStr) = []) ∧
    wrapper [] ⟨some ⟨some speakingStr, false⟩⟩ ⟨some (some (pyStr "stop now"))⟩ =
      forwardOutcome ⟨some (some (pyStr "stop now"))⟩ :=
  ⟨⟨rfl, rfl⟩,
    C2_forward_when_gate_fails [] ⟨some ⟨some speakingStr, false⟩⟩
      ⟨some (some (pyStr "stop now"))⟩ (some (pyStr "stop now")) rfl
      (Or.inr (Or.inl rfl))⟩

/-- C3: an internal error raised inside the wrapper's `try` body (modelled
by the one failing operation of the embedding, the `ev.transcript`
attribute access) is caught: the wrapper still returns, the decision
defaults to Forward with the original handler invoked on the event, and
the error surfaces only in the log flag, never in the decision. -/
theorem C3_fail_open (vocab : List PyStr) (ctx : ActivityCtx) (ev : Ev)
    (h : ev.transcriptAttr = none) :
    wrapperTry vocab ctx ev = TryOutcome.raised ∧
    wrapper vocab ctx ev =
      { decision := Decision.forward, origArg := some ev, emitAttempts := 0,
        errorLogged := true, emitFailureLogged := false } := by
  have h1 : wrapperTry vocab ctx ev = TryOutcome.raised := by
    unfold wrapperTry
    rw [h]
  refine ⟨h1, ?_⟩
  unfold wrapper
  rw [h1]

theorem C3_witness :
    ((⟨none⟩ : Ev).transcriptAttr = none) ∧
    wrapper [pyStr "uh"] ⟨some ⟨some speakingStr, false⟩⟩ ⟨none⟩ =
      { decision := Decision.forward, origArg := some ⟨none⟩, emitAttempts := 0,
        errorLogged := true, emitFailureLogged := false } :=
  ⟨rfl, (C3_fail_open [pyStr "uh"] ⟨some ⟨some speakingStr, false⟩⟩ ⟨none⟩ rfl).2⟩

/-- C4: the false-interruption notification is attempted exactly once on
every Suppress decision and never on a Forward decision; a failure of the
emit itself is only logged (`emitFailureLogged`) and cannot change the
decision — the decision is independent of whether `session.emit` raises. -/
theorem C4_notification_exactly_once (vocab : List PyStr) (ctx : ActivityCtx) (ev : Ev) :
    ((wrapper vocab ctx ev).decision = Decision.suppress →
        (wrapper vocab ctx ev).emitAttempts = 1) ∧
    ((wrapper vocab ctx ev).decision = Decision.forward →
        (wrapper vocab ctx ev).emitAttempts = 0) ∧
    ((wrapper vocab ctx ev).decision = Decision.suppress →
        (wrapper vocab ctx ev).emitFailureLogged = emitFailsOf ctx) ∧
    (∀ (st : Option PyStr) (b₁ b₂ : Bool),
        (wrapper vocab ⟨some ⟨st, b₁⟩⟩ ev).decision =
          (wrapper vocab ⟨some ⟨st, b₂⟩⟩ ev).decision) := by
  refine ⟨?_, ?_, ?_, ?_⟩
  · intro h
    unfold wrapper at h ⊢
    generalize wrapperTry vocab ctx ev = o at h ⊢
    cases o
    · rfl
    · simp at h
    · simp at h
  · intro h
    unfold wrapper at h ⊢
    generalize wrapperTry vocab ctx ev = o at h ⊢
    cases o
    · simp at h
    · rfl
    · rfl
  · intro h
    unfold wrapper at h ⊢
    generalize wrapperTry vocab ctx ev = o at h ⊢
    cases o
    · rfl
    · simp at h
    · simp at h
  · intro st b₁ b₂
    have ht : wrapperTry vocab ⟨some ⟨st, b₁⟩⟩ ev = wrapperTry vocab ⟨some ⟨st, b₂⟩⟩ ev := rfl
    unfold wrapper
    rw [ht]
    cases wrapperTry vocab ⟨some ⟨st, b₂⟩⟩ ev <;> rfl

theorem C4_witness :
    (wrapper [pyStr "uh"] ⟨some ⟨some speakingStr, true⟩⟩
        ⟨some (some (pyStr "uh"))⟩).decision = Decision.suppress ∧
    (wrapper [pyStr "uh"] ⟨some ⟨some speakingStr, true⟩⟩
        ⟨some (some (pyStr "uh"))⟩).emitAttempts = 1 :=
  ⟨by decide,
    (C4_notification_exactly_once [pyStr "uh"] ⟨some ⟨some speakingStr, true⟩⟩
      ⟨some (some (pyStr "uh"))⟩).1 (by decide)⟩

/-- C9: degenerate inputs always forward with no notification: a `None`
transcript behaves exactly like an empty transcript, and a missing or
`None` session, or an agent state other than the string "speaking",
forwards the unmodified event. -/
theorem C9_degenerate_forward (vocab : List PyStr) (ctx : ActivityCtx) (ev : Ev)
    (tr : Option PyStr) (htr : ev.transcriptAttr = some tr)
    (h : tr = none ∨ ctx.session = none ∨
        (∃ s, ctx.session = some s ∧ s.agentState ≠ some speakingStr)) :
    wrapper vocab ctx ev = forwardOutcome ev ∧
    (wrapper vocab ctx ⟨some none⟩).decision =
      (wrapper vocab ctx ⟨some (some [])⟩).decision := by
  have hboth : (wrapper vocab ctx ⟨some none⟩).decision =
      (wrapper vocab ctx ⟨some (some [])⟩).decision := by
    have h1 : wrapper vocab ctx ⟨some none⟩ = forwardOutcome ⟨some none⟩ :=
      wrapper_forward_of_gate rfl (Or.inr (Or.inl rfl))
    have h2 : wrapper vocab ctx ⟨some (some [])⟩ = forwardOutcome ⟨some (some [])⟩ :=
      wrapper_forward_of_gate rfl (Or.inr (Or.inl rfl))
    rw [h1, h2]
    rfl
  refine ⟨?_, hboth⟩
  apply wrapper_forward_of_gate htr
  rcases h with h | h | h
  · subst h
    exact Or.inr (Or.inl rfl)
  · refine Or.inl ?_
    rintro ⟨s, hs, -⟩
    rw [h] at hs
    cases hs
  · obtain ⟨s, hs, hne⟩ := h
    refine Or.inl ?_
    rintro ⟨s', hs', hsp⟩
    rw [hs] at hs'
    injection hs' with hss
    exact hne (hss ▸ hsp)

theorem C9_witness :
    ((⟨some none⟩ : Ev).transcriptAttr = some none) ∧
    wrapper [pyStr "uh"] ⟨some ⟨some speakingStr, false⟩⟩ ⟨some none⟩ =
      forwardOutcome ⟨some none⟩ :=
  ⟨rfl,
    (C9_degenerate_forward [pyStr "uh"] ⟨some ⟨some speakingStr, false⟩⟩ ⟨some none⟩
      none rfl (Or.inl rfl)).1⟩

theorem bnot_isEmpty_eq_true {α : Type} {l : List α} : (!l.isEmpty) = true ↔ l ≠ [] := by
  cases l <;> simp

theorem pyLower_ne_nil {l : PyStr} (h : l ≠ []) : pyLower l ≠ [] := by
  cases l
  · exact absurd rfl h
  · simp [pyLower]

/-- C5 counterexample: the claimed idempotence fails on the string
`'a '` (apostrophe, `a`, space, apostrophe — code points 39 97 32 39):
stripping the quotes exposes a trailing space, so a second normalization
pass still shortens the string. -/
theorem C5_counterexample :
    _norm (_norm [39, 97, 32, 39]) ≠ _norm [39, 97, 32, 39] := by decide

/-- C5 (amended): normalization is idempotent on every string containing
no whitespace character — in particular on every token produced by the
whitespace tokenizer — and `"[noise]"` and `"noise"` normalize to the
identical string.  (Unrestricted idempotence fails: see the
counterexample, where stripping quotes exposes interior whitespace.) -/
theorem C5_norm_idempotent_ws_free (s : PyStr)
    (h : ∀ c ∈ s, isPyWS c = false) :
    _norm (_norm s) = _norm s ∧ _norm (pyStr "[noise]") = _norm (pyStr "noise") := by
  refine ⟨?_, by decide⟩
  unfold _norm pyStripWS pyStripPunct pyLower
  rw [pyStripBy_eq_self_of_all h]
  have hrws : ∀ c ∈ pyStripBy isPyPunct (s.map pyLowerChar), isPyWS c = false := by
    intro c hc
    have hcm : c ∈ s.map pyLowerChar := mem_of_mem_pyStripBy hc
    obtain ⟨x, hx, rfl⟩ := List.mem_map.mp hcm
    rw [isPyWS_pyLowerChar]
    exact h x hx
  rw [pyStripBy_eq_self_of_all hrws]
  have hlow : (pyStripBy isPyPunct (s.map pyLowerChar)).map pyLowerChar
      = pyStripBy isPyPunct (s.map pyLowerChar) := by
    have hid : ∀ c ∈ pyStripBy isPyPunct (s.map pyLowerChar), pyLowerChar c = c := by
      intro c hc
      have hcm : c ∈ s.map pyLowerChar := mem_of_mem_pyStripBy hc
      obtain ⟨x, hx, rfl⟩ := List.mem_map.mp hcm
      exact pyLowerChar_idem x
    calc (pyStripBy isPyPunct (s.map pyLowerChar)).map pyLowerChar
        = (pyStripBy isPyPunct (s.map pyLowerChar)).map id := List.map_congr_left hid
    _ = pyStripBy isPyPunct (s.map pyLowerChar) :=
        List.map_id (pyStripBy isPyPunct (s.map pyLowerChar))
  rw [hlow]
  exact pyStripBy_idem isPyPunct (s.map pyLowerChar)

theorem C5_witness :
    (∀ c ∈ pyStr "[noise]", isPyWS c = false) ∧
    (_norm (_norm (pyStr "[noise]")) = _norm (pyStr "[noise]") ∧
      _norm (pyStr "[noise]") = _norm (pyStr "noise")) :=
  ⟨by decide, C5_norm_idempotent_ws_free (pyStr "[noise]") (by decide)⟩

/-- C6 counterexample: the stored vocabulary is a list, not a
deduplicated set — `set_ignored_words(["a", "a"])` stores `["a", "a"]` —
and a whitespace-only word survives the `if w` guard and is stored as the
empty string, which even makes a punctuation-only transcript suppressible
while the agent speaks. -/
theorem C6_counterexample :
    set_ignored_words [pyStr "a", pyStr "a"] = [pyStr "a", pyStr "a"] ∧
    ¬ (set_ignored_words [pyStr "a", pyStr "a"]).Nodup ∧
    set_ignored_words [pyStr " "] = [[]] ∧
    (wrapper (set_ignored_words [pyStr " "]) ⟨some ⟨some speakingStr, false⟩⟩
        ⟨some (some (pyStr "!"))⟩).decision = Decision.suppress := by
  refine ⟨by decide, by decide, by decide, by decide⟩

/-- C6 (amended): `set_ignored_words` (and construction) replaces the
stored vocabulary with the trimmed, lowercased forms of exactly the
originally non-empty input words — duplicates and whitespace-only entries
(stored as empty strings) are retained, deduplication happening only at
decision time — it is total (raises no error), and an empty input yields
an empty vocabulary after which every decision is Forward. -/
theorem C6_vocab_update (words : List PyStr) :
    (∀ w, w ∈ set_ignored_words words ↔
        ∃ x, x ∈ words ∧ x ≠ [] ∧ w = pyLower (pyStripWS x)) ∧
    set_ignored_words [] = [] ∧
    (∀ (ctx : ActivityCtx) (ev : Ev) (tr : Option PyStr),
        ev.transcriptAttr = some tr →
        wrapper (set_ignored_words []) ctx ev = forwardOutcome ev) := by
  refine ⟨?_, rfl, ?_⟩
  · intro w
    unfold set_ignored_words
    constructor
    · intro hw
      obtain ⟨x, hx, rfl⟩ := List.mem_map.mp hw
      obtain ⟨hx1, hx2⟩ := List.mem_filter.mp hx
      exact ⟨x, hx1, bnot_isEmpty_eq_true.mp hx2, rfl⟩
    · rintro ⟨x, hx, hne, rfl⟩
      exact List.mem_map.mpr ⟨x, List.mem_filter.mpr ⟨hx, bnot_isEmpty_eq_true.mpr hne⟩, rfl⟩
  · intro ctx ev tr htr
    exact wrapper_forward_of_gate htr (Or.inr (Or.inr rfl))

theorem C6_witness :
    (pyStr "UH " ∈ set_ignored_words [pyStr "UH "] ↔
        ∃ x, x ∈ [pyStr "UH "] ∧ x ≠ [] ∧ pyStr "UH " = pyLower (pyStripWS x)) ∧
    pyStr "uh" ∈ set_ignored_words [pyStr "UH "] :=
  ⟨(C6_vocab_update [pyStr "UH "]).1 (pyStr "UH "),
    ((C6_vocab_update [pyStr "UH "]).1 (pyStr "uh")).mpr
      ⟨pyStr "UH ", by decide, by decide, by decide⟩⟩

/-- The entries the spec requires the default vocabulary to contain. -/
def requiredDefaults : List PyStr :=
  [pyStr "uh", pyStr "umm", pyStr "hmm", pyStr "err", pyStr "ah", pyStr "like",
   pyStr "you know", pyStr "mm", pyStr "mhm", pyStr "mmm", pyStr "[noise]",
   pyStr "[background]", pyStr "[inaudible]", pyStr "[laugh]", pyStr "[cough]",
   pyStr "[breath]", pyStr "<noise>", pyStr "<silence>", pyStr "<background>"]

/-- C7: `from_env` on a set, non-empty variable splits on commas and keeps
exactly the trimmed, lowercased forms of the parts that are non-empty
after trimming (no entry ever raises); an unset variable behaves like an
empty one (both fall back to the built-in default list); and the default
vocabulary contains all the required filler and marker entries. -/
theorem C7_from_env_behavior (s : PyStr) (hs : s ≠ []) :
    (∀ w, w ∈ from_env (some s) ↔
        ∃ p, p ∈ pySplitChar 44 s ∧ pyStripWS p ≠ [] ∧ w = pyLower (pyStripWS p)) ∧
    from_env none = from_env (some []) ∧
    (∀ w ∈ requiredDefaults, w ∈ from_env none) := by
  have hemp : s.isEmpty = false := by
    cases s
    · exact absurd rfl hs
    · rfl
  have hraw : from_env (some s) = set_ignored_words (fromEnvParts s) := by
    unfold from_env
    simp [hemp]
  refine ⟨?_, rfl, by decide⟩
  intro w
  rw [hraw]
  unfold set_ignored_words fromEnvParts
  constructor
  · intro hw
    obtain ⟨y, hy, rfl⟩ := List.mem_map.mp hw
    obtain ⟨hy1, _⟩ := List.mem_filter.mp hy
    obtain ⟨p, hp, rfl⟩ := List.mem_map.mp hy1
    obtain ⟨hp1, hp2⟩ := List.mem_filter.mp hp
    refine ⟨p, hp1, bnot_isEmpty_eq_true.mp hp2, ?_⟩
    rw [pyStripWS_pyLower_pyStripWS, pyLower_pyLower]
  · rintro ⟨p, hp, hne, rfl⟩
    apply List.mem_map.mpr
    refine ⟨pyLower (pyStripWS p), ?_, ?_⟩
    · apply List.mem_filter.mpr
      refine ⟨?_, ?_⟩
      · apply List.mem_map.mpr
        exact ⟨p, List.mem_filter.mpr ⟨hp, bnot_isEmpty_eq_true.mpr hne⟩, rfl⟩
      · exact bnot_isEmpty_eq_true.mpr (pyLower_ne_nil hne)
    · rw [pyStripWS_pyLower_pyStripWS, pyLower_pyLower]

theorem C7_witness :
    (pyStr "x" ≠ []) ∧ pyStr "uh" ∈ from_env none :=
  ⟨by decide,
    (C7_from_env_behavior (pyStr "x") (by decide)).2.2 (pyStr "uh") (by decide)⟩

/-- C10: a non-empty environment value made only of commas and whitespace
does not fall back to the defaults: it yields an empty vocabulary, after
which every decision forwards the unmodified event. -/
theorem C10_commas_only_disable (s : PyStr) (hne : s ≠ [])
    (hc : ∀ c ∈ s, c = 44 ∨ isPyWS c = true) :
    from_env (some s) = [] ∧
    (∀ (ctx : ActivityCtx) (ev : Ev) (tr : Option PyStr),
        ev.transcriptAttr = some tr →
        wrapper (from_env (some s)) ctx ev = forwardOutcome ev) := by
  have hemp : s.isEmpty = false := by
    cases s
    · exact absurd rfl hne
    · rfl
  have hraw : from_env (some s) = set_ignored_words (fromEnvParts s) := by
    unfold from_env
    simp [hemp]
  have hparts : fromEnvParts s = [] := by
    unfold fromEnvParts
    have hfil : (pySplitChar 44 s).filter (fun p => !(pyStripWS p).isEmpty) = [] := by
      rw [List.filter_eq_nil_iff]
      intro p hp
      have hall : ∀ c ∈ p, isPyWS c = true := by
        intro c hcp
        have h2 := pySplitChar_mem s p hp c hcp
        rcases hc c h2.1 with h3 | h3
        · exact absurd h3 h2.2
        · exact h3
      have hsnil : pyStripWS p = [] := pyStripBy_eq_nil_iff.mpr hall
      simp [hsnil]
    rw [hfil]
    rfl
  have hnil : from_env (some s) = [] := by
    rw [hraw, hparts]
    rfl
  refine ⟨hnil, ?_⟩
  intro ctx ev tr htr
  exact wrapper_forward_of_gate htr (Or.inr (Or.inr hnil))

theorem C10_witness :
    (pyStr ",,," ≠ [] ∧ ∀ c ∈ pyStr ",,,", c = 44 ∨ isPyWS c = true) ∧
    from_env (some (pyStr ",,,")) = [] :=
  ⟨⟨by decide, by decide⟩,
    (C10_commas_only_disable (pyStr ",,,") (by decide) (by decide)).1⟩

theorem PatchState.ext' {H : Type} {s t : PatchState H}
    (h1 : s.handlers = t.handlers) (h2 : s.origMap = t.origMap) : s = t := by
  cases s
  cases t
  simp_all

/-- C8: attaching is idempotent — a second `attach_to_activity` on an
already-attached activity changes nothing — and `detach_from_activity`
after an attach restores the exact original handler (indeed the whole
patch state). -/
theorem C8_attach_idem_detach_inverse {H : Type} (wrap : H → H) (a : Nat)
    (s : PatchState H) :
    attach_to_activity wrap a (attach_to_activity wrap a s) = attach_to_activity wrap a s ∧
    (s.origMap.lookup a = none →
        detach_from_activity a (attach_to_activity wrap a s) = s) := by
  constructor
  · by_cases h : (s.origMap.lookup a).isSome
    · unfold attach_to_activity
      rw [if_pos h, if_pos h]
    · unfold attach_to_activity
      rw [if_neg h]
      rw [if_pos (by simp [List.lookup])]
  · intro h
    unfold attach_to_activity
    rw [if_neg (by rw [h]; simp)]
    unfold detach_from_activity
    have hl : (((a, s.handlers a) :: s.origMap).lookup a) = some (s.handlers a) := by
      simp [List.lookup]
    dsimp only
    rw [hl]
    apply PatchState.ext'
    · funext x
      by_cases hx : x = a
      · subst hx
        simp
      · simp [hx]
    · dsimp only
      rw [List.eraseP_cons_of_pos]
      simp

theorem C8_witness :
    (([] : List (Nat × Nat)).lookup 0 = none) ∧
    detach_from_activity 0
        (attach_to_activity (fun h => h + 1) 0
          ({ handlers := fun _ => 5, origMap := [] } : PatchState Nat)) =
      { handlers := fun _ => 5, origMap := [] } :=
  ⟨rfl,
    (C8_attach_idem_detach_inverse (fun h => h + 1) 0
      { handlers := fun _ => 5, origMap := [] }).2 rfl⟩
